import Mathlib

/-!
Verification of the railgun computational essay (`Railgun_V1.9.ipynb`).

The notebook's algorithmic core is a pair of explicit-Euler integration
loops (a "bare" one with constant driving current, and an "augmented" one
adding gravity and an induced-current depletion of the driving current),
each wrapped in a geometric current-escalation search.  We embed those
loops shallowly: the loop bodies become step functions on explicit state
records, the unbounded `while` loops become fuel-indexed runners (the
runner returns `none` exactly when the loop has not exited within the
given number of iterations) together with an unconditional iterate
sequence used to state termination and non-termination.

Python floats are modelled as real numbers and `np.log` as `Real.log`.
-/

noncomputable section

namespace Railgun

/-- Physical and integration parameters of a run: rail separation `D`,
rail width `w`, rail length `L`, projectile mass `m`, magnetic constant
`k = μ₀/2π` (`Muover2pi` in the notebook), and timestep `dt`. -/
structure Params where
  D : ℝ
  w : ℝ
  L : ℝ
  m : ℝ
  k : ℝ
  dt : ℝ

/-- The logarithmic geometry factor `log(D + w/2) - log(w/2)` that the
notebook writes inline as `np.log(D+w/2)-np.log(w/2)` in every force and
induction expression. -/
def lnTerm (D w : ℝ) : ℝ := Real.log (D + w / 2) - Real.log (w / 2)

/-- Spec §4.1: `magnetic_force(I, D, w, k) = 2·k·I²·(ln(D + w/2) − ln(w/2))`. -/
def magnetic_force (I D w k : ℝ) : ℝ :=
  2 * k * I ^ 2 * (Real.log (D + w / 2) - Real.log (w / 2))

/-- Spec §4.1: `induced_current_rate(I, D, w, k, v) = −2·k·I·(ln(D+w/2) − ln(w/2))·v`. -/
def induced_current_rate (I D w k v : ℝ) : ℝ :=
  -(2 * k * I * (Real.log (D + w / 2) - Real.log (w / 2)) * v)

/-- State of the bare integrator: bar position, velocity and the driving
current (a variable the bare loop body reads but never writes). -/
structure BareState where
  barpos : ℝ
  v : ℝ
  I : ℝ

/-- One iteration of the bare inner loop (notebook cells 20 and 25):
`Fnet = 2*Muover2pi*(I**2)*(np.log(D+w/2)-np.log(w/2))`;
`v = v + Fnet/m*dt`; `barpos = barpos + v*dt`.  `I` is not written. -/
def bareStep (P : Params) (s : BareState) : BareState :=
  let Fnet := 2 * P.k * s.I ^ 2 * lnTerm P.D P.w
  let v := s.v + Fnet / P.m * P.dt
  { barpos := s.barpos + v * P.dt, v := v, I := s.I }

/-- The iterate sequence of the bare loop body from a given state
(applied unconditionally, to state termination of the `while`). -/
def bareIter (P : Params) (s : BareState) : ℕ → BareState
  | 0 => s
  | n + 1 => bareStep P (bareIter P s n)

/-- Fueled semantics of `while barpos < L: <bareStep>` followed by reading
`v`: `some v` if the loop exits within `fuel` iterations, else `none`. -/
def bareRunAux (P : Params) : ℕ → BareState → Option ℝ
  | 0, _ => none
  | n + 1, s => if s.barpos < P.L then bareRunAux P n (bareStep P s) else some s.v

/-- Fresh start state of a bare run: `barpos = 0`, `v = 0`, current `I`. -/
def bareInit (I : ℝ) : BareState := { barpos := 0, v := 0, I := I }

/-- The bare `while barpos < L` loop, started from a fresh state with
current `I`, eventually exits. -/
def bareTerminates (P : Params) (I : ℝ) : Prop :=
  ∃ n, P.L ≤ (bareIter P (bareInit I) n).barpos

/-- The bare outer search loop (cell 25), with loop state `(v, I)`:
`while v <= v_goal: barpos = 0; v = 0; <inner run>; I = I*g`, then the
final print reports the pair `(v, I/g)`.  Fuel bounds the number of
outer iterations. -/
def bareSearchLoop (P : Params) (g v_goal : ℝ) (innerFuel : ℕ) :
    ℕ → ℝ → ℝ → Option (ℝ × ℝ)
  | 0, _, _ => none
  | n + 1, v, I =>
    if v ≤ v_goal then
      match bareRunAux P innerFuel (bareInit I) with
      | none => none
      | some v2 => bareSearchLoop P g v_goal innerFuel n v2 (I * g)
    else some (v, I / g)

/-- The bare search as invoked by the notebook: initial `v = 0` (cell 24)
and initial current `I_start`. -/
def bareSearch (P : Params) (g v_goal I_start : ℝ) (innerFuel outerFuel : ℕ) :
    Option (ℝ × ℝ) :=
  bareSearchLoop P g v_goal innerFuel outerFuel 0 I_start

/-- Loop-top snapshot of the bare search: the pair `(v, I)` held at the
top of the `while v <= v_goal` check before trial `n`.  This unrolls the
same loop as `bareSearchLoop`, recording the state instead of the final
print. -/
def bareTrialState (P : Params) (g v_goal : ℝ) (innerFuel : ℕ) (I_start : ℝ) :
    ℕ → Option (ℝ × ℝ)
  | 0 => some (0, I_start)
  | n + 1 =>
    match bareTrialState P g v_goal innerFuel I_start n with
    | none => none
    | some (v, I) =>
      if v ≤ v_goal then
        match bareRunAux P innerFuel (bareInit I) with
        | none => none
        | some v2 => some (v2, I * g)
      else none

/-- State of the augmented integrator: bar position, velocity, elapsed
time and the (depleting) current. -/
structure AugState where
  barpos : ℝ
  v : ℝ
  t : ℝ
  I : ℝ

/-- One iteration of the augmented inner loop (cell 31):
`I = I - 2*Muover2pi*I*(np.log(D+w/2)-np.log(w/2))*v`;
`Fnet = 2*Muover2pi*(I**2)*(np.log(D+w/2)-np.log(w/2)) - 9.8*m`;
`v = v + Fnet/m*dt`; `barpos = barpos + v*dt`; `t = t + dt`.
Note the current update does not multiply by `dt`. -/
def augStep (P : Params) (s : AugState) : AugState :=
  let I := s.I - 2 * P.k * s.I * lnTerm P.D P.w * s.v
  let Fnet := 2 * P.k * I ^ 2 * lnTerm P.D P.w - 9.8 * P.m
  let v := s.v + Fnet / P.m * P.dt
  { barpos := s.barpos + v * P.dt, v := v, t := s.t + P.dt, I := I }

/-- The net force computed inside `augStep` from the pre-step state
(i.e. from the already-depleted current). -/
def augFnet (P : Params) (s : AugState) : ℝ :=
  2 * P.k * (s.I - 2 * P.k * s.I * lnTerm P.D P.w * s.v) ^ 2 * lnTerm P.D P.w - 9.8 * P.m

/-- Iterate sequence of the augmented loop body. -/
def augIter (P : Params) (s : AugState) : ℕ → AugState
  | 0 => s
  | n + 1 => augStep P (augIter P s n)

/-- Fueled semantics of the augmented `while barpos < L` loop, returning
the full exit state (velocity, time and current are all read afterwards). -/
def augRunAux (P : Params) : ℕ → AugState → Option AugState
  | 0, _ => none
  | n + 1, s => if s.barpos < P.L then augRunAux P n (augStep P s) else some s

/-- Start state of one augmented run: `barpos = 0`, `v = 0`, carried-over
time `t` and trial current `I` (cell 31 resets only `barpos` and `v`). -/
def augInit (t I : ℝ) : AugState := { barpos := 0, v := 0, t := t, I := I }

/-- The augmented `while barpos < L` loop from a given start state
eventually exits. -/
def augTerminates (P : Params) (s : AugState) : Prop :=
  ∃ n, P.L ≤ (augIter P s n).barpos

/-- The augmented outer search loop (cell 31), with loop state
`(v, I_start, t)`: `while v <= v_goal: barpos = 0; v = 0; <inner run,
mutating I and t>; I_start = I_start*g; I = I_start`, and the final print
reports `(v, I/g)` with `I = I_start`. -/
def augSearchLoop (P : Params) (g v_goal : ℝ) (innerFuel : ℕ) :
    ℕ → ℝ → ℝ → ℝ → Option (ℝ × ℝ)
  | 0, _, _, _ => none
  | n + 1, v, Istart, t =>
    if v ≤ v_goal then
      match augRunAux P innerFuel (augInit t Istart) with
      | none => none
      | some s => augSearchLoop P g v_goal innerFuel n s.v (Istart * g) s.t
    else some (v, Istart / g)

/-- The augmented search as invoked by the notebook: initial `v = 0`
(cell 30), initial current `I_start`, and globally carried time `t0`. -/
def augSearch (P : Params) (g v_goal I_start t0 : ℝ) (innerFuel outerFuel : ℕ) :
    Option (ℝ × ℝ) :=
  augSearchLoop P g v_goal innerFuel outerFuel 0 I_start t0

/-- Loop-top snapshot of the augmented search: `(v, I_start, t)` before
trial `n`; unrolls the same loop as `augSearchLoop`. -/
def augTrialState (P : Params) (g v_goal : ℝ) (innerFuel : ℕ) (I_start t0 : ℝ) :
    ℕ → Option (ℝ × ℝ × ℝ)
  | 0 => some (0, I_start, t0)
  | n + 1 =>
    match augTrialState P g v_goal innerFuel I_start t0 n with
    | none => none
    | some (v, Istart, t) =>
      if v ≤ v_goal then
        match augRunAux P innerFuel (augInit t Istart) with
        | none => none
        | some s => some (s.v, Istart * g, s.t)
      else none

/-- A convenient concrete parameter set for counterexamples: the geometry
`w = 2`, `D = e − 1` makes the logarithmic factor exactly `1`, and
`k = 1/2`, `m = 1`, `dt = 1`, `L = 3` make all step arithmetic rational. -/
def P0 : Params := { D := Real.exp 1 - 1, w := 2, L := 3, m := 1, k := 1 / 2, dt := 1 }

/-- Same geometry as `P0` but with timestep `dt = 1/2`, used to separate
a per-step depletion of `rate·dt` from the code's `rate·1`. -/
def P1 : Params := { D := Real.exp 1 - 1, w := 2, L := 3, m := 1, k := 1 / 2, dt := 1 / 2 }

/-- The notebook's literal parameter values (cells 10, 13, 18). -/
def Pnb : Params := { D := 0.15, w := 0.1, L := 10, m := 1, k := 2e-7, dt := 1e-5 }

/-- An all-ones parameter set used to instantiate universally quantified
theorems at a concrete valid input. -/
def Pone : Params := { D := 1, w := 1, L := 1, m := 1, k := 1, dt := 1 }

/-! Basic unfolding lemmas for the fueled runners and search loops. -/

lemma bareRunAux_succ_lt (P : Params) (n : ℕ) (s : BareState) (h : s.barpos < P.L) :
    bareRunAux P (n + 1) s = bareRunAux P n (bareStep P s) := by
  simp only [bareRunAux, if_pos h]

lemma bareRunAux_succ_ge (P : Params) (n : ℕ) (s : BareState) (h : ¬ s.barpos < P.L) :
    bareRunAux P (n + 1) s = some s.v := by
  simp only [bareRunAux, if_neg h]

lemma augRunAux_succ_lt (P : Params) (n : ℕ) (s : AugState) (h : s.barpos < P.L) :
    augRunAux P (n + 1) s = augRunAux P n (augStep P s) := by
  simp only [augRunAux, if_pos h]

lemma augRunAux_succ_ge (P : Params) (n : ℕ) (s : AugState) (h : ¬ s.barpos < P.L) :
    augRunAux P (n + 1) s = some s := by
  simp only [augRunAux, if_neg h]

lemma bareSearchLoop_succ_run (P : Params) (g v_goal : ℝ) (innerFuel n : ℕ)
    (v I v2 : ℝ) (h : v ≤ v_goal) (hrun : bareRunAux P innerFuel (bareInit I) = some v2) :
    bareSearchLoop P g v_goal innerFuel (n + 1) v I =
      bareSearchLoop P g v_goal innerFuel n v2 (I * g) := by
  simp only [bareSearchLoop, if_pos h, hrun]

lemma bareSearchLoop_succ_stop (P : Params) (g v_goal : ℝ) (innerFuel n : ℕ)
    (v I : ℝ) (h : ¬ v ≤ v_goal) :
    bareSearchLoop P g v_goal innerFuel (n + 1) v I = some (v, I / g) := by
  simp only [bareSearchLoop, if_neg h]

lemma augSearchLoop_succ_run (P : Params) (g v_goal : ℝ) (innerFuel n : ℕ)
    (v Istart t : ℝ) (s : AugState) (h : v ≤ v_goal)
    (hrun : augRunAux P innerFuel (augInit t Istart) = some s) :
    augSearchLoop P g v_goal innerFuel (n + 1) v Istart t =
      augSearchLoop P g v_goal innerFuel n s.v (Istart * g) s.t := by
  simp only [augSearchLoop, if_pos h, hrun]

lemma augSearchLoop_succ_stop (P : Params) (g v_goal : ℝ) (innerFuel n : ℕ)
    (v Istart t : ℝ) (h : ¬ v ≤ v_goal) :
    augSearchLoop P g v_goal innerFuel (n + 1) v Istart t = some (v, Istart / g) := by
  simp only [augSearchLoop, if_neg h]

lemma bareTrialState_succ_run (P : Params) (g v_goal : ℝ) (innerFuel : ℕ) (I_start : ℝ)
    (n : ℕ) (v I v2 : ℝ)
    (hprev : bareTrialState P g v_goal innerFuel I_start n = some (v, I))
    (h : v ≤ v_goal) (hrun : bareRunAux P innerFuel (bareInit I) = some v2) :
    bareTrialState P g v_goal innerFuel I_start (n + 1) = some (v2, I * g) := by
  simp only [bareTrialState, hprev, if_pos h, hrun]

lemma augTrialState_succ_run (P : Params) (g v_goal : ℝ) (innerFuel : ℕ) (I_start t0 : ℝ)
    (n : ℕ) (v Istart t : ℝ) (s : AugState)
    (hprev : augTrialState P g v_goal innerFuel I_start t0 n = some (v, Istart, t))
    (h : v ≤ v_goal) (hrun : augRunAux P innerFuel (augInit t Istart) = some s) :
    augTrialState P g v_goal innerFuel I_start t0 (n + 1) = some (s.v, Istart * g, s.t) := by
  simp only [augTrialState, hprev, if_pos h, hrun]

lemma bareStep_v (P : Params) (s : BareState) :
    (bareStep P s).v = s.v + 2 * P.k * s.I ^ 2 * lnTerm P.D P.w / P.m * P.dt := rfl

lemma bareStep_barpos (P : Params) (s : BareState) :
    (bareStep P s).barpos = s.barpos + (bareStep P s).v * P.dt := rfl

/-! Shifting and constancy lemmas for the iterate sequences. -/

lemma bareIter_shift (P : Params) (s : BareState) (n : ℕ) :
    bareIter P (bareStep P s) n = bareIter P s (n + 1) := by
  induction n with
  | zero => rfl
  | succ n ih => simp only [bareIter, ih]

lemma augIter_shift (P : Params) (s : AugState) (n : ℕ) :
    augIter P (augStep P s) n = augIter P s (n + 1) := by
  induction n with
  | zero => rfl
  | succ n ih => simp only [augIter, ih]

lemma bareIter_I (P : Params) (s : BareState) (n : ℕ) :
    (bareIter P s n).I = s.I := by
  induction n with
  | zero => rfl
  | succ n ih => simp only [bareIter, bareStep, ih]

/-- The bare step leaves `I` unchanged, updates `v` by the magnetic force
over mass times `dt`, and then updates `barpos` with the new `v`. -/
lemma bareStep_eq (P : Params) (s : BareState) :
    bareStep P s =
      { barpos := s.barpos + (s.v + magnetic_force s.I P.D P.w P.k / P.m * P.dt) * P.dt,
        v := s.v + magnetic_force s.I P.D P.w P.k / P.m * P.dt,
        I := s.I } := rfl

/-- The velocity update of the augmented step, phrased through `augFnet`. -/
lemma augStep_v (P : Params) (s : AugState) :
    (augStep P s).v = s.v + augFnet P s / P.m * P.dt := rfl

lemma augStep_barpos (P : Params) (s : AugState) :
    (augStep P s).barpos = s.barpos + (augStep P s).v * P.dt := rfl

/-! Runner and iterate sequence agree: a successful run exits at the
first crossing of `L` and returns the velocity there; a run that never
crosses returns `none` for every fuel. -/

lemma bareRunAux_some (P : Params) :
    ∀ fuel (s : BareState) (vout : ℝ), bareRunAux P fuel s = some vout →
      ∃ n, (∀ j < n, (bareIter P s j).barpos < P.L) ∧
        P.L ≤ (bareIter P s n).barpos ∧ vout = (bareIter P s n).v := by
  intro fuel
  induction fuel with
  | zero => intro s vout h; simp [bareRunAux] at h
  | succ fuel ih =>
    intro s vout h
    by_cases hc : s.barpos < P.L
    · rw [bareRunAux_succ_lt P fuel s hc] at h
      obtain ⟨n, hlt, hge, hv⟩ := ih (bareStep P s) vout h
      refine ⟨n + 1, ?_, ?_, ?_⟩
      · intro j hj
        match j with
        | 0 => exact hc
        | j + 1 =>
          rw [← bareIter_shift]
          exact hlt j (by omega)
      · rw [← bareIter_shift]; exact hge
      · rw [← bareIter_shift]; exact hv
    · rw [bareRunAux_succ_ge P fuel s hc] at h
      exact ⟨0, by omega, not_lt.mp hc, (Option.some_injective _ h).symm⟩

lemma bareRunAux_none_of_no_cross (P : Params) (s : BareState)
    (h : ∀ n, (bareIter P s n).barpos < P.L) :
    ∀ fuel, bareRunAux P fuel s = none := by
  intro fuel
  induction fuel generalizing s with
  | zero => rfl
  | succ fuel ih =>
    rw [bareRunAux_succ_lt P fuel s (h 0)]
    exact ih (bareStep P s) (fun n => by rw [bareIter_shift]; exact h (n + 1))

lemma augRunAux_none_of_no_cross (P : Params) (s : AugState)
    (h : ∀ n, (augIter P s n).barpos < P.L) :
    ∀ fuel, augRunAux P fuel s = none := by
  intro fuel
  induction fuel generalizing s with
  | zero => rfl
  | succ fuel ih =>
    rw [augRunAux_succ_lt P fuel s (h 0)]
    exact ih (augStep P s) (fun n => by rw [augIter_shift]; exact h (n + 1))

/-! Concrete evaluation lemmas at the rational-friendly geometry. -/

lemma lnTerm_exp : lnTerm (Real.exp 1 - 1) 2 = 1 := by
  unfold lnTerm
  have h2 : (2 : ℝ) / 2 = 1 := by norm_num
  rw [h2, show Real.exp 1 - 1 + 1 = Real.exp 1 by ring, Real.log_exp, Real.log_one, sub_zero]

lemma bareStep_P0 (x v I : ℝ) :
    bareStep P0 ⟨x, v, I⟩ = ⟨x + (v + I ^ 2), v + I ^ 2, I⟩ := by
  simp only [bareStep, P0, lnTerm_exp, BareState.mk.injEq]
  norm_num

lemma augStep_P0 (x v t I : ℝ) :
    augStep P0 ⟨x, v, t, I⟩ =
      ⟨x + (v + ((I - I * v) ^ 2 - 49 / 5)), v + ((I - I * v) ^ 2 - 49 / 5), t + 1,
        I - I * v⟩ := by
  simp only [augStep, P0, lnTerm_exp, AugState.mk.injEq]
  norm_num

lemma augStep_P1 (x v t I : ℝ) :
    augStep P1 ⟨x, v, t, I⟩ =
      ⟨x + (v + ((I - I * v) ^ 2 - 49 / 5) / 2) / 2, v + ((I - I * v) ^ 2 - 49 / 5) / 2,
        t + 1 / 2, I - I * v⟩ := by
  simp only [augStep, P1, lnTerm_exp, AugState.mk.injEq]
  norm_num
  exact ⟨by ring, by ring⟩

/-! Concrete inner runs at the rational-friendly geometry. -/

lemma bareRun_P0_I17 : bareRunAux P0 3 (bareInit (17 / 10)) = some (289 / 50) := by
  have e1 : bareStep P0 ⟨0, 0, 17 / 10⟩ = ⟨289 / 100, 289 / 100, 17 / 10⟩ := by
    rw [bareStep_P0]; norm_num
  have e2 : bareStep P0 ⟨289 / 100, 289 / 100, 17 / 10⟩ = ⟨867 / 100, 289 / 50, 17 / 10⟩ := by
    rw [bareStep_P0]; norm_num
  show bareRunAux P0 (2 + 1) ⟨0, 0, 17 / 10⟩ = some (289 / 50)
  rw [bareRunAux_succ_lt P0 2 ⟨0, 0, 17 / 10⟩ (by norm_num [P0]), e1]
  show bareRunAux P0 (1 + 1) ⟨289 / 100, 289 / 100, 17 / 10⟩ = some (289 / 50)
  rw [bareRunAux_succ_lt P0 1 ⟨289 / 100, 289 / 100, 17 / 10⟩ (by norm_num [P0]), e2]
  show bareRunAux P0 (0 + 1) ⟨867 / 100, 289 / 50, 17 / 10⟩ = some (289 / 50)
  rw [bareRunAux_succ_ge P0 0 ⟨867 / 100, 289 / 50, 17 / 10⟩ (by norm_num [P0])]

lemma bareRun_P0_I18 : bareRunAux P0 3 (bareInit (9 / 5)) = some (81 / 25) := by
  have e1 : bareStep P0 ⟨0, 0, 9 / 5⟩ = ⟨81 / 25, 81 / 25, 9 / 5⟩ := by
    rw [bareStep_P0]; norm_num
  show bareRunAux P0 (2 + 1) ⟨0, 0, 9 / 5⟩ = some (81 / 25)
  rw [bareRunAux_succ_lt P0 2 ⟨0, 0, 9 / 5⟩ (by norm_num [P0]), e1]
  show bareRunAux P0 (1 + 1) ⟨81 / 25, 81 / 25, 9 / 5⟩ = some (81 / 25)
  rw [bareRunAux_succ_ge P0 1 ⟨81 / 25, 81 / 25, 9 / 5⟩ (by norm_num [P0])]

lemma bareRun_P0_I1 : bareRunAux P0 3 (bareInit 1) = some 2 := by
  have e1 : bareStep P0 ⟨0, 0, 1⟩ = ⟨1, 1, 1⟩ := by
    rw [bareStep_P0]; norm_num
  have e2 : bareStep P0 ⟨1, 1, 1⟩ = ⟨3, 2, 1⟩ := by
    rw [bareStep_P0]; norm_num
  show bareRunAux P0 (2 + 1) ⟨0, 0, 1⟩ = some 2
  rw [bareRunAux_succ_lt P0 2 ⟨0, 0, 1⟩ (by norm_num [P0]), e1]
  show bareRunAux P0 (1 + 1) ⟨1, 1, 1⟩ = some 2
  rw [bareRunAux_succ_lt P0 1 ⟨1, 1, 1⟩ (by norm_num [P0]), e2]
  show bareRunAux P0 (0 + 1) ⟨3, 2, 1⟩ = some 2
  rw [bareRunAux_succ_ge P0 0 ⟨3, 2, 1⟩ (by norm_num [P0])]

lemma bareRun_P0_I2 : bareRunAux P0 3 (bareInit 2) = some 4 := by
  have e1 : bareStep P0 ⟨0, 0, 2⟩ = ⟨4, 4, 2⟩ := by
    rw [bareStep_P0]; norm_num
  show bareRunAux P0 (2 + 1) ⟨0, 0, 2⟩ = some 4
  rw [bareRunAux_succ_lt P0 2 ⟨0, 0, 2⟩ (by norm_num [P0]), e1]
  show bareRunAux P0 (1 + 1) ⟨4, 4, 2⟩ = some 4
  rw [bareRunAux_succ_ge P0 1 ⟨4, 4, 2⟩ (by norm_num [P0])]

lemma augStep_P0_start : augStep P0 ⟨0, 0, 0, 1⟩ = ⟨-(44 / 5), -(44 / 5), 1, 1⟩ := by
  rw [augStep_P0]; norm_num

lemma augStep_P0_second :
    augStep P0 ⟨-(44 / 5), -(44 / 5), 1, 1⟩ = ⟨1716 / 25, 1936 / 25, 2, 49 / 5⟩ := by
  rw [augStep_P0]; norm_num

lemma augRun_P0_I1 :
    augRunAux P0 3 (augInit 0 1) = some ⟨1716 / 25, 1936 / 25, 2, 49 / 5⟩ := by
  show augRunAux P0 (2 + 1) ⟨0, 0, 0, 1⟩ = some ⟨1716 / 25, 1936 / 25, 2, 49 / 5⟩
  rw [augRunAux_succ_lt P0 2 ⟨0, 0, 0, 1⟩ (by norm_num [P0]), augStep_P0_start]
  show augRunAux P0 (1 + 1) ⟨-(44 / 5), -(44 / 5), 1, 1⟩ = some ⟨1716 / 25, 1936 / 25, 2, 49 / 5⟩
  rw [augRunAux_succ_lt P0 1 ⟨-(44 / 5), -(44 / 5), 1, 1⟩ (by norm_num [P0]), augStep_P0_second]
  show augRunAux P0 (0 + 1) ⟨1716 / 25, 1936 / 25, 2, 49 / 5⟩ = some ⟨1716 / 25, 1936 / 25, 2, 49 / 5⟩
  rw [augRunAux_succ_ge P0 0 ⟨1716 / 25, 1936 / 25, 2, 49 / 5⟩ (by norm_num [P0])]

/-! Closed-form facts about the bare iterates. -/

lemma lnTerm_pos (D w : ℝ) (hD : 0 < D) (hw : 0 < w) : 0 < lnTerm D w := by
  have h1 : 0 < w / 2 := by linarith
  have h2 : w / 2 < D + w / 2 := by linarith
  have h3 := Real.log_lt_log h1 h2
  unfold lnTerm
  linarith

/-- In the bare loop the velocity after `n` steps is exactly `n` times the
constant per-step increment `2·k·I²·lnTerm/m·dt`. -/
lemma bareIter_v (P : Params) (I : ℝ) (n : ℕ) :
    (bareIter P (bareInit I) n).v
      = n * (2 * P.k * I ^ 2 * lnTerm P.D P.w / P.m * P.dt) := by
  induction n with
  | zero => simp [bareIter, bareInit]
  | succ n ih =>
    have hI := bareIter_I P (bareInit I) n
    show (bareStep P (bareIter P (bareInit I) n)).v = _
    rw [bareStep_v, hI, show (bareInit I).I = I from rfl, ih]
    push_cast
    ring

/-- In the bare loop the position after `n` steps is at least `n` times
`c·dt`, where `c` is the per-step velocity increment. -/
lemma bareIter_barpos_ge (P : Params) (I : ℝ)
    (hc : 0 ≤ 2 * P.k * I ^ 2 * lnTerm P.D P.w / P.m * P.dt) (hdt : 0 ≤ P.dt) :
    ∀ n : ℕ, (n : ℝ) * (2 * P.k * I ^ 2 * lnTerm P.D P.w / P.m * P.dt * P.dt)
      ≤ (bareIter P (bareInit I) n).barpos := by
  intro n
  induction n with
  | zero => simp [bareIter, bareInit]
  | succ n ih =>
    have hv := bareIter_v P I (n + 1)
    have hb : (bareIter P (bareInit I) (n + 1)).barpos
        = (bareIter P (bareInit I) n).barpos + (bareIter P (bareInit I) (n + 1)).v * P.dt := by
      show (bareStep P (bareIter P (bareInit I) n)).barpos = _
      rw [bareStep_barpos]
      rfl
    rw [hb, hv]
    have hcd : 0 ≤ 2 * P.k * I ^ 2 * lnTerm P.D P.w / P.m * P.dt * P.dt :=
      mul_nonneg hc hdt
    have hn : (0 : ℝ) ≤ (n : ℝ) := Nat.cast_nonneg n
    push_cast
    nlinarith [ih]

/-- Termination of the bare loop for any nonzero current (given positive
geometry, mass and timestep). -/
lemma bareTerminates_of_ne (P : Params) (hD : 0 < P.D) (hw : 0 < P.w)
    (hm : 0 < P.m) (hk : 0 < P.k) (hdt : 0 < P.dt) (I : ℝ) (hI : I ≠ 0) :
    bareTerminates P I := by
  have hI2 : 0 < I ^ 2 := lt_of_le_of_ne (sq_nonneg I) (Ne.symm (pow_ne_zero 2 hI))
  have hln := lnTerm_pos P.D P.w hD hw
  have hc : 0 < 2 * P.k * I ^ 2 * lnTerm P.D P.w / P.m * P.dt :=
    mul_pos (div_pos (mul_pos (mul_pos (mul_pos two_pos hk) hI2) hln) hm) hdt
  have hcd : 0 < 2 * P.k * I ^ 2 * lnTerm P.D P.w / P.m * P.dt * P.dt := mul_pos hc hdt
  obtain ⟨n, hn⟩ := exists_nat_ge (P.L / (2 * P.k * I ^ 2 * lnTerm P.D P.w / P.m * P.dt * P.dt))
  refine ⟨n, ?_⟩
  have h1 : P.L ≤ (n : ℝ) * (2 * P.k * I ^ 2 * lnTerm P.D P.w / P.m * P.dt * P.dt) := by
    rw [div_le_iff₀ hcd] at hn
    linarith
  exact le_trans h1 (bareIter_barpos_ge P I hc.le hdt.le n)

/-- If the force computed at every augmented step is nonpositive, then
from a start with nonpositive velocity and position, velocity and
position stay nonpositive forever. -/
lemma aug_nonpos_of_fnet_nonpos (P : Params) (hm : 0 ≤ P.m) (hdt : 0 ≤ P.dt)
    (s0 : AugState) (hv0 : s0.v ≤ 0) (hx0 : s0.barpos ≤ 0)
    (hF : ∀ n, augFnet P (augIter P s0 n) ≤ 0) :
    ∀ n, (augIter P s0 n).v ≤ 0 ∧ (augIter P s0 n).barpos ≤ 0 := by
  intro n
  induction n with
  | zero => exact ⟨hv0, hx0⟩
  | succ n ih =>
    have hFn := hF n
    have hdiv : augFnet P (augIter P s0 n) / P.m ≤ 0 :=
      div_nonpos_iff.mpr (Or.inr ⟨hFn, hm⟩)
    have hv' : (augIter P s0 (n + 1)).v ≤ 0 := by
      have hs : (augIter P s0 (n + 1)).v
          = (augIter P s0 n).v + augFnet P (augIter P s0 n) / P.m * P.dt := augStep_v P _
      rw [hs]
      nlinarith [ih.1]
    refine ⟨hv', ?_⟩
    have hs : (augIter P s0 (n + 1)).barpos
        = (augIter P s0 n).barpos + (augIter P s0 (n + 1)).v * P.dt := augStep_barpos P _
    rw [hs]
    nlinarith [ih.2]

/-- If the constant bare force is nonpositive, velocity and position stay
nonpositive forever. -/
lemma bare_nonpos_of_fnet_nonpos (P : Params) (hm : 0 ≤ P.m) (hdt : 0 ≤ P.dt) (I : ℝ)
    (hF : 2 * P.k * I ^ 2 * lnTerm P.D P.w ≤ 0) :
    ∀ n, (bareIter P (bareInit I) n).v ≤ 0 ∧ (bareIter P (bareInit I) n).barpos ≤ 0 := by
  have hc : 2 * P.k * I ^ 2 * lnTerm P.D P.w / P.m * P.dt ≤ 0 := by
    have hdiv : 2 * P.k * I ^ 2 * lnTerm P.D P.w / P.m ≤ 0 :=
      div_nonpos_iff.mpr (Or.inr ⟨hF, hm⟩)
    nlinarith
  intro n
  induction n with
  | zero => exact ⟨le_refl 0, le_refl 0⟩
  | succ n ih =>
    have hv' : (bareIter P (bareInit I) (n + 1)).v ≤ 0 := by
      rw [bareIter_v]
      have hn : (0 : ℝ) ≤ ((n + 1 : ℕ) : ℝ) := Nat.cast_nonneg _
      nlinarith
    refine ⟨hv', ?_⟩
    have hs : (bareIter P (bareInit I) (n + 1)).barpos
        = (bareIter P (bareInit I) n).barpos + (bareIter P (bareInit I) (n + 1)).v * P.dt :=
      bareStep_barpos P _
    rw [hs]
    nlinarith [ih.2]

/-- At zero current the bare step is the identity on the fresh start
state: the force, velocity and position all stay exactly zero. -/
lemma bareIter_zero_current (P : Params) :
    ∀ n, bareIter P (bareInit 0) n = bareInit 0 := by
  intro n
  induction n with
  | zero => rfl
  | succ n ih =>
    show bareStep P (bareIter P (bareInit 0) n) = bareInit 0
    rw [ih]
    simp [bareStep, bareInit]

/-- At zero current the augmented current stays zero and velocity and
position stay nonpositive (gravity only pulls backwards). -/
lemma augIter_zero_current (P : Params) (hm : 0 ≤ P.m) (hdt : 0 ≤ P.dt) (t0 : ℝ) :
    ∀ n, (augIter P (augInit t0 0) n).I = 0 ∧ (augIter P (augInit t0 0) n).v ≤ 0 ∧
      (augIter P (augInit t0 0) n).barpos ≤ 0 := by
  intro n
  induction n with
  | zero => exact ⟨rfl, le_refl 0, le_refl 0⟩
  | succ n ih =>
    obtain ⟨hI, hv, hx⟩ := ih
    have hdep : (augIter P (augInit t0 0) n).I
        - 2 * P.k * (augIter P (augInit t0 0) n).I * lnTerm P.D P.w
          * (augIter P (augInit t0 0) n).v = 0 := by
      rw [hI]
      ring
    have hF : augFnet P (augIter P (augInit t0 0) n) ≤ 0 := by
      unfold augFnet
      rw [hdep]
      have h98 : (0 : ℝ) ≤ 9.8 * P.m := by nlinarith
      nlinarith
    have hI' : (augIter P (augInit t0 0) (n + 1)).I = 0 := by
      show (augIter P (augInit t0 0) n).I
          - 2 * P.k * (augIter P (augInit t0 0) n).I * lnTerm P.D P.w
            * (augIter P (augInit t0 0) n).v = 0
      exact hdep
    have hdiv : augFnet P (augIter P (augInit t0 0) n) / P.m ≤ 0 :=
      div_nonpos_iff.mpr (Or.inr ⟨hF, hm⟩)
    have hv' : (augIter P (augInit t0 0) (n + 1)).v ≤ 0 := by
      have hs : (augIter P (augInit t0 0) (n + 1)).v
          = (augIter P (augInit t0 0) n).v
            + augFnet P (augIter P (augInit t0 0) n) / P.m * P.dt := augStep_v P _
      rw [hs]
      nlinarith
    refine ⟨hI', hv', ?_⟩
    have hs : (augIter P (augInit t0 0) (n + 1)).barpos
        = (augIter P (augInit t0 0) n).barpos
          + (augIter P (augInit t0 0) (n + 1)).v * P.dt := augStep_barpos P _
    rw [hs]
    nlinarith

lemma bareSearchLoop_succ_none (P : Params) (g v_goal : ℝ) (innerFuel n : ℕ)
    (v I : ℝ) (h : v ≤ v_goal) (hrun : bareRunAux P innerFuel (bareInit I) = none) :
    bareSearchLoop P g v_goal innerFuel (n + 1) v I = none := by
  simp only [bareSearchLoop, if_pos h, hrun]

lemma augSearchLoop_succ_none (P : Params) (g v_goal : ℝ) (innerFuel n : ℕ)
    (v Istart t : ℝ) (h : v ≤ v_goal)
    (hrun : augRunAux P innerFuel (augInit t Istart) = none) :
    augSearchLoop P g v_goal innerFuel (n + 1) v Istart t = none := by
  simp only [augSearchLoop, if_pos h, hrun]

/-! Concrete outer searches at the rational-friendly geometry. -/

/-- Bare search at `P0` with `g = 2`, `v_goal = 3`, `I_start = 1`: trial
`1` gives exit velocity `2 ≤ 3`, trial `2` gives `4 > 3`, and the
reported pair is `(4, 2)` — the succeeding trial current itself. -/
lemma bareSearch_P0_goal3 : bareSearch P0 2 3 1 3 3 = some (4, 2) := by
  show bareSearchLoop P0 2 3 3 (2 + 1) 0 1 = some (4, 2)
  rw [bareSearchLoop_succ_run P0 2 3 3 2 0 1 2 (by norm_num) bareRun_P0_I1,
      show (1 : ℝ) * 2 = 2 by norm_num]
  show bareSearchLoop P0 2 3 3 (1 + 1) 2 2 = some (4, 2)
  rw [bareSearchLoop_succ_run P0 2 3 3 1 2 2 4 (by norm_num) bareRun_P0_I2,
      show (2 : ℝ) * 2 = 4 by norm_num]
  show bareSearchLoop P0 2 3 3 (0 + 1) 4 4 = some (4, 2)
  rw [bareSearchLoop_succ_stop P0 2 3 3 0 4 4 (by norm_num)]
  norm_num

/-- Bare search at `P0` with `v_goal = 1`: the very first trial already
exceeds the goal, and the reported current is `I_start = 1`. -/
lemma bareSearch_P0_goal1 : bareSearch P0 2 1 1 3 2 = some (2, 1) := by
  show bareSearchLoop P0 2 1 3 (1 + 1) 0 1 = some (2, 1)
  rw [bareSearchLoop_succ_run P0 2 1 3 1 0 1 2 (by norm_num) bareRun_P0_I1,
      show (1 : ℝ) * 2 = 2 by norm_num]
  show bareSearchLoop P0 2 1 3 (0 + 1) 2 2 = some (2, 1)
  rw [bareSearchLoop_succ_stop P0 2 1 3 0 2 2 (by norm_num)]
  norm_num

/-- Augmented search at `P0` with `v_goal = 1`: the first trial exits with
velocity `1936/25 > 1`, and the reported current is also `I_start = 1`. -/
lemma augSearch_P0_goal1 : augSearch P0 2 1 1 0 3 2 = some (1936 / 25, 1) := by
  show augSearchLoop P0 2 1 3 (1 + 1) 0 1 0 = some (1936 / 25, 1)
  rw [augSearchLoop_succ_run P0 2 1 3 1 0 1 0 ⟨1716 / 25, 1936 / 25, 2, 49 / 5⟩
      (by norm_num) augRun_P0_I1]
  show augSearchLoop P0 2 1 3 (0 + 1) (1936 / 25) (1 * 2) 2 = some (1936 / 25, 1)
  rw [augSearchLoop_succ_stop P0 2 1 3 0 (1936 / 25) (1 * 2) 2 (by norm_num)]
  norm_num

/-- Trial-state snapshot of the bare search at `P0`, `g = 2`,
`v_goal = 3`: before trial `1` the loop holds `(v, I) = (2, 2)`. -/
lemma bareTrialState_P0_one : bareTrialState P0 2 3 3 1 1 = some (2, 2) := by
  rw [bareTrialState_succ_run P0 2 3 3 1 0 0 1 2 rfl (by norm_num) bareRun_P0_I1]
  norm_num

/-- Trial-state snapshot of the augmented search at `P0`, `g = 2`,
`v_goal = 100`: before trial `1` the loop holds `(v, I_start, t) =
(1936/25, 2, 2)` — the elapsed time `2` is carried over, not reset. -/
lemma augTrialState_P0_one : augTrialState P0 2 100 3 1 0 1 = some (1936 / 25, 2, 2) := by
  rw [augTrialState_succ_run P0 2 100 3 1 0 0 0 1 0 ⟨1716 / 25, 1936 / 25, 2, 49 / 5⟩
      rfl (by norm_num) augRun_P0_I1]
  norm_num

/-! Claim theorems. -/

/-- C1 (counterexample): in the augmented inner loop the claim "the amount
depleted per step equals `dt · induced_current_rate(I, D, w, k, v)`" fails:
at geometry with `lnTerm = 1`, `k = 1/2`, `dt = 1/2`, running from current
`4`, the second step of the actual run sets `I` to `-42/5`, while
`I + dt · induced_current_rate(I, …, v)` at the same pre-step state equals
`-11/5`.  (The first step's state has `barpos < L`, so the second step is
really taken by the loop.) -/
theorem claim_C1_counterexample :
    (augIter P1 (augInit 0 4) 1).barpos < P1.L ∧
    (augIter P1 (augInit 0 4) 2).I = -(42 / 5) ∧
    (augIter P1 (augInit 0 4) 1).I +
        P1.dt * induced_current_rate (augIter P1 (augInit 0 4) 1).I P1.D P1.w P1.k
          (augIter P1 (augInit 0 4) 1).v = -(11 / 5) ∧
    (augIter P1 (augInit 0 4) 2).I ≠
      (augIter P1 (augInit 0 4) 1).I +
        P1.dt * induced_current_rate (augIter P1 (augInit 0 4) 1).I P1.D P1.w P1.k
          (augIter P1 (augInit 0 4) 1).v := by
  have hlog : Real.log (Real.exp 1 - 1 + 2 / 2) - Real.log (2 / 2) = 1 := lnTerm_exp
  have h1 : augIter P1 (augInit 0 4) 1 = ⟨31 / 20, 31 / 10, 1 / 2, 4⟩ := by
    show augStep P1 ⟨0, 0, 0, 4⟩ = _
    rw [augStep_P1]; norm_num
  have h2 : (augIter P1 (augInit 0 4) 2).I = -(42 / 5) := by
    show (augStep P1 (augIter P1 (augInit 0 4) 1)).I = _
    rw [h1, augStep_P1]; norm_num
  have hrate : induced_current_rate (4 : ℝ) P1.D P1.w P1.k (31 / 10) = -(62 / 5) := by
    unfold induced_current_rate
    simp only [P1]
    rw [hlog]
    norm_num
  have h3 : (augIter P1 (augInit 0 4) 1).I +
      P1.dt * induced_current_rate (augIter P1 (augInit 0 4) 1).I P1.D P1.w P1.k
        (augIter P1 (augInit 0 4) 1).v = -(11 / 5) := by
    rw [h1]
    show (4 : ℝ) + P1.dt * induced_current_rate 4 P1.D P1.w P1.k (31 / 10) = -(11 / 5)
    rw [hrate]
    norm_num [P1]
  refine ⟨?_, h2, h3, ?_⟩
  · rw [h1]; norm_num [P1]
  · rw [h2, h3]; norm_num

/-- C1 (amended): every augmented step first updates the current by
`I ← I + induced_current_rate(I, D, w, k, v)` — the rate is applied
directly, **without** the factor `dt` the claim asserts — using the
previous step's velocity and current, and only then computes this step's
force from the updated current (and the previous velocity), updates the
velocity, the position (with the new velocity) and the time. -/
theorem claim_C1_amended (P : Params) (s : AugState) :
    (augStep P s).I = s.I + induced_current_rate s.I P.D P.w P.k s.v ∧
    (augStep P s).v = s.v +
      (magnetic_force (s.I + induced_current_rate s.I P.D P.w P.k s.v) P.D P.w P.k
        - 9.8 * P.m) / P.m * P.dt ∧
    (augStep P s).barpos = s.barpos + (augStep P s).v * P.dt ∧
    (augStep P s).t = s.t + P.dt := by
  have hI : s.I - 2 * P.k * s.I * lnTerm P.D P.w * s.v
      = s.I + induced_current_rate s.I P.D P.w P.k s.v := by
    unfold induced_current_rate lnTerm
    ring
  refine ⟨hI, ?_, rfl, rfl⟩
  show s.v + (2 * P.k * (s.I - 2 * P.k * s.I * lnTerm P.D P.w * s.v) ^ 2 * lnTerm P.D P.w
      - 9.8 * P.m) / P.m * P.dt = _
  rw [hI]
  unfold magnetic_force lnTerm
  rfl

/-- C4: in the bare integrator every step computes the net force as
`magnetic_force(I, D, w, k)` with `I` unchanged, updates the velocity by
`F/m·dt`, then the position with the *new* velocity, in that order; and a
run that returns did so by exiting at the first iterate whose position
reached `L`, returning the velocity of that iterate. -/
theorem claim_C4_step_order_and_exit (P : Params) (fuel : ℕ) (s0 : BareState) (vout : ℝ)
    (h : bareRunAux P fuel s0 = some vout) :
    (∀ s : BareState,
        bareStep P s =
          { barpos := s.barpos + (s.v + magnetic_force s.I P.D P.w P.k / P.m * P.dt) * P.dt,
            v := s.v + magnetic_force s.I P.D P.w P.k / P.m * P.dt,
            I := s.I }) ∧
    ∃ n, (∀ j < n, (bareIter P s0 j).barpos < P.L) ∧
      P.L ≤ (bareIter P s0 n).barpos ∧ vout = (bareIter P s0 n).v :=
  ⟨fun s => bareStep_eq P s, bareRunAux_some P fuel s0 vout h⟩

/-- Witness for C4 at the concrete run of `P0` with current `17/10`. -/
theorem claim_C4_witness :
    (∀ s : BareState,
        bareStep P0 s =
          { barpos := s.barpos + (s.v + magnetic_force s.I P0.D P0.w P0.k / P0.m * P0.dt) * P0.dt,
            v := s.v + magnetic_force s.I P0.D P0.w P0.k / P0.m * P0.dt,
            I := s.I }) ∧
    ∃ n, (∀ j < n, (bareIter P0 (bareInit (17 / 10)) j).barpos < P0.L) ∧
      P0.L ≤ (bareIter P0 (bareInit (17 / 10)) n).barpos ∧
      (289 / 50 : ℝ) = (bareIter P0 (bareInit (17 / 10)) n).v :=
  claim_C4_step_order_and_exit P0 3 (bareInit (17 / 10)) (289 / 50) bareRun_P0_I17

/-- C5: the bare inner loop terminates for every positive current (the
force is then strictly positive and constant); conversely — in either
variant — whenever the net force computed at every step is nonpositive,
the velocity never becomes positive and the loop never terminates. -/
theorem claim_C5_termination (P : Params) (hD : 0 < P.D) (hw : 0 < P.w) (hL : 0 < P.L)
    (hm : 0 < P.m) (hk : 0 < P.k) (hdt : 0 < P.dt) :
    (∀ I : ℝ, 0 < I → bareTerminates P I) ∧
    (∀ I : ℝ, 2 * P.k * I ^ 2 * lnTerm P.D P.w ≤ 0 →
        (∀ n, (bareIter P (bareInit I) n).v ≤ 0) ∧ ¬ bareTerminates P I) ∧
    (∀ t0 I0 : ℝ, (∀ n, augFnet P (augIter P (augInit t0 I0) n) ≤ 0) →
        (∀ n, (augIter P (augInit t0 I0) n).v ≤ 0) ∧
          ¬ augTerminates P (augInit t0 I0)) := by
  refine ⟨fun I hI => bareTerminates_of_ne P hD hw hm hk hdt I (ne_of_gt hI),
    fun I hF => ?_, fun t0 I0 hF => ?_⟩
  · have h := bare_nonpos_of_fnet_nonpos P hm.le hdt.le I hF
    refine ⟨fun n => (h n).1, ?_⟩
    rintro ⟨n, hn⟩
    have := (h n).2
    linarith
  · have h := aug_nonpos_of_fnet_nonpos P hm.le hdt.le (augInit t0 I0)
      (le_refl 0) (le_refl 0) hF
    refine ⟨fun n => (h n).1, ?_⟩
    rintro ⟨n, hn⟩
    have := (h n).2
    linarith

/-- Witness for C5 at the all-ones parameters. -/
theorem claim_C5_witness :
    (∀ I : ℝ, 0 < I → bareTerminates Pone I) ∧
    (∀ I : ℝ, 2 * Pone.k * I ^ 2 * lnTerm Pone.D Pone.w ≤ 0 →
        (∀ n, (bareIter Pone (bareInit I) n).v ≤ 0) ∧ ¬ bareTerminates Pone I) ∧
    (∀ t0 I0 : ℝ, (∀ n, augFnet Pone (augIter Pone (augInit t0 I0) n) ≤ 0) →
        (∀ n, (augIter Pone (augInit t0 I0) n).v ≤ 0) ∧
          ¬ augTerminates Pone (augInit t0 I0)) :=
  claim_C5_termination Pone (by norm_num [Pone]) (by norm_num [Pone]) (by norm_num [Pone])
    (by norm_num [Pone]) (by norm_num [Pone]) (by norm_num [Pone])

/-- C6 (counterexample): at the notebook's own parameters a bare run
invoked with current `0` is *not* detected and reported — there is no
iteration or time cap anywhere in the code — and the loop never exits:
the iterates never reach `L`. -/
theorem claim_C6_counterexample : ¬ bareTerminates Pnb 0 := by
  rintro ⟨n, hn⟩
  rw [bareIter_zero_current Pnb n] at hn
  have hx : (bareInit (0 : ℝ)).barpos = 0 := rfl
  rw [hx] at hn
  norm_num [Pnb] at hn

/-- C6 (amended): a run invoked with `I0 = 0` never terminates, in either
variant: the code has no iteration or time cap, the fueled runner returns
no result for any fuel, and no `NonTerminatingRun` failure is (or can be)
reported. -/
theorem claim_C6_amended (P : Params) (hL : 0 < P.L) (hm : 0 < P.m) (hdt : 0 < P.dt)
    (t0 : ℝ) :
    ¬ bareTerminates P 0 ∧ (∀ fuel, bareRunAux P fuel (bareInit 0) = none) ∧
    ¬ augTerminates P (augInit t0 0) ∧ (∀ fuel, augRunAux P fuel (augInit t0 0) = none) := by
  have hbare : ∀ n, (bareIter P (bareInit 0) n).barpos < P.L := by
    intro n
    rw [bareIter_zero_current P n]
    show (0 : ℝ) < P.L
    exact hL
  have haug : ∀ n, (augIter P (augInit t0 0) n).barpos < P.L := by
    intro n
    have := (augIter_zero_current P hm.le hdt.le t0 n).2.2
    linarith
  refine ⟨?_, bareRunAux_none_of_no_cross P (bareInit 0) hbare, ?_,
    augRunAux_none_of_no_cross P (augInit t0 0) haug⟩
  · rintro ⟨n, hn⟩
    exact absurd hn (not_le.mpr (hbare n))
  · rintro ⟨n, hn⟩
    exact absurd hn (not_le.mpr (haug n))

/-- Witness for the amended C6 at the notebook parameters. -/
theorem claim_C6_witness :
    ¬ bareTerminates Pnb 0 ∧ (∀ fuel, bareRunAux Pnb fuel (bareInit 0) = none) ∧
    ¬ augTerminates Pnb (augInit 0 0) ∧ (∀ fuel, augRunAux Pnb fuel (augInit 0 0) = none) :=
  claim_C6_amended Pnb (by norm_num [Pnb]) (by norm_num [Pnb]) (by norm_num [Pnb]) 0

/-- C7 (counterexample): the exit velocity is **not** strictly increasing
in the trial current: at the `lnTerm = 1` geometry with `L = 3`, the run
at current `17/10` exits with velocity `289/50 = 5.78` after two steps,
while the larger current `9/5` exits with the smaller velocity
`81/25 = 3.24` after one step. -/
theorem claim_C7_counterexample :
    (0 : ℝ) < 17 / 10 ∧ (17 / 10 : ℝ) < 9 / 5 ∧
    bareRunAux P0 3 (bareInit (17 / 10)) = some (289 / 50) ∧
    bareRunAux P0 3 (bareInit (9 / 5)) = some (81 / 25) ∧
    ¬ (289 / 50 : ℝ) < 81 / 25 :=
  ⟨by norm_num, by norm_num, bareRun_P0_I17, bareRun_P0_I18, by norm_num⟩

/-- C7 (amended): for fixed geometry, mass and timestep in bare mode, the
velocity after any fixed positive number of steps is strictly increasing
in the trial current (for positive currents); the exit velocity itself is
not monotone because the discrete number of steps to exit can drop as the
current grows. -/
theorem claim_C7_amended (P : Params) (hD : 0 < P.D) (hw : 0 < P.w) (hm : 0 < P.m)
    (hk : 0 < P.k) (hdt : 0 < P.dt) (I1 I2 : ℝ) (h1 : 0 < I1) (h12 : I1 < I2)
    (n : ℕ) (hn : 1 ≤ n) :
    (bareIter P (bareInit I1) n).v < (bareIter P (bareInit I2) n).v := by
  rw [bareIter_v, bareIter_v]
  have hln := lnTerm_pos P.D P.w hD hw
  have hsq : I1 ^ 2 < I2 ^ 2 := by nlinarith
  have hn0 : (0 : ℝ) < (n : ℝ) := by
    have : (1 : ℝ) ≤ (n : ℝ) := by exact_mod_cast hn
    linarith
  have hd : 2 * P.k * I1 ^ 2 * lnTerm P.D P.w / P.m * P.dt
      < 2 * P.k * I2 ^ 2 * lnTerm P.D P.w / P.m * P.dt := by
    gcongr
  exact mul_lt_mul_of_pos_left hd hn0

/-- Witness for the amended C7 at the all-ones parameters. -/
theorem claim_C7_witness :
    (bareIter Pone (bareInit 1) 1).v < (bareIter Pone (bareInit 2) 1).v :=
  claim_C7_amended Pone (by norm_num [Pone]) (by norm_num [Pone]) (by norm_num [Pone])
    (by norm_num [Pone]) (by norm_num [Pone]) 1 2 (by norm_num) (by norm_num) 1 le_rfl

/-- C9 (counterexample): the augmented current is **not** monotonically
non-increasing along a run: starting the `P0` run at current `1`, the
first step leaves `I = 1` (and `barpos = -44/5 < L`, so the run
continues), and the second step *raises* the current to `49/5`, because
the velocity went negative under gravity. -/
theorem claim_C9_counterexample :
    (augIter P0 (augInit 0 1) 1).barpos < P0.L ∧
    (augIter P0 (augInit 0 1) 1).I = 1 ∧
    (augIter P0 (augInit 0 1) 2).I = 49 / 5 ∧
    ¬ (augIter P0 (augInit 0 1) 2).I ≤ (augIter P0 (augInit 0 1) 1).I := by
  have h1 : augIter P0 (augInit 0 1) 1 = ⟨-(44 / 5), -(44 / 5), 1, 1⟩ := by
    show augStep P0 ⟨0, 0, 0, 1⟩ = _
    exact augStep_P0_start
  have h2 : augIter P0 (augInit 0 1) 2 = ⟨1716 / 25, 1936 / 25, 2, 49 / 5⟩ := by
    show augStep P0 (augIter P0 (augInit 0 1) 1) = _
    rw [h1]
    exact augStep_P0_second
  refine ⟨by rw [h1]; norm_num [P0], by rw [h1], by rw [h2], by rw [h1, h2]; norm_num⟩

/-- C9 (amended): the current is unchanged by every bare step, and the
augmented step does not increase it at any state whose velocity and
current are nonnegative; the counterexample shows it can increase once
the velocity is negative. -/
theorem claim_C9_amended (P : Params) (hD : 0 < P.D) (hw : 0 < P.w) (hk : 0 ≤ P.k)
    (s : BareState) (sa : AugState) (hv : 0 ≤ sa.v) (hI : 0 ≤ sa.I) :
    (bareStep P s).I = s.I ∧ (augStep P sa).I ≤ sa.I := by
  refine ⟨rfl, ?_⟩
  show sa.I - 2 * P.k * sa.I * lnTerm P.D P.w * sa.v ≤ sa.I
  have hln := (lnTerm_pos P.D P.w hD hw).le
  have hprod : 0 ≤ 2 * P.k * sa.I * lnTerm P.D P.w * sa.v :=
    mul_nonneg (mul_nonneg (mul_nonneg (by linarith) hI) hln) hv
  linarith

/-- Witness for the amended C9 at the all-ones parameters. -/
theorem claim_C9_witness :
    (bareStep Pone ⟨0, 0, 5⟩).I = (⟨0, 0, 5⟩ : BareState).I ∧
    (augStep Pone ⟨0, 1, 0, 2⟩).I ≤ (⟨0, 1, 0, 2⟩ : AugState).I :=
  claim_C9_amended Pone (by norm_num [Pone]) (by norm_num [Pone]) (by norm_num [Pone])
    ⟨0, 0, 5⟩ ⟨0, 1, 0, 2⟩ (by norm_num) (by norm_num)

/-- C10: the bare per-step force is state-independent, so each step adds
the same constant `2·k·I²·lnTerm/m·dt` to the velocity; after `n` steps
the velocity is exactly `n` times that constant, the velocity sequence is
strictly increasing, and any returned exit velocity is strictly positive
(all for `I ≠ 0`). -/
theorem claim_C10_linear_velocity (P : Params) (hD : 0 < P.D) (hw : 0 < P.w)
    (hL : 0 < P.L) (hm : 0 < P.m) (hk : 0 < P.k) (hdt : 0 < P.dt) (I : ℝ) (hI : I ≠ 0) :
    (∀ s : BareState, s.I = I →
        (bareStep P s).v = s.v + 2 * P.k * I ^ 2 * lnTerm P.D P.w / P.m * P.dt) ∧
    (∀ n : ℕ, (bareIter P (bareInit I) n).v
        = n * (2 * P.k * I ^ 2 * lnTerm P.D P.w / P.m * P.dt)) ∧
    (∀ n : ℕ, (bareIter P (bareInit I) n).v < (bareIter P (bareInit I) (n + 1)).v) ∧
    (∀ fuel vout, bareRunAux P fuel (bareInit I) = some vout → 0 < vout) := by
  have hln := lnTerm_pos P.D P.w hD hw
  have hI2 : 0 < I ^ 2 := lt_of_le_of_ne (sq_nonneg I) (Ne.symm (pow_ne_zero 2 hI))
  have hc : 0 < 2 * P.k * I ^ 2 * lnTerm P.D P.w / P.m * P.dt :=
    mul_pos (div_pos (mul_pos (mul_pos (mul_pos two_pos hk) hI2) hln) hm) hdt
  refine ⟨?_, bareIter_v P I, ?_, ?_⟩
  · intro s hs
    rw [bareStep_v, hs]
  · intro n
    rw [bareIter_v, bareIter_v]
    have hexp : ((n + 1 : ℕ) : ℝ) * (2 * P.k * I ^ 2 * lnTerm P.D P.w / P.m * P.dt)
        = (n : ℝ) * (2 * P.k * I ^ 2 * lnTerm P.D P.w / P.m * P.dt)
          + 2 * P.k * I ^ 2 * lnTerm P.D P.w / P.m * P.dt := by
      push_cast
      ring
    rw [hexp]
    linarith
  · intro fuel vout hrun
    obtain ⟨n, hlt, hge, hv⟩ := bareRunAux_some P fuel _ vout hrun
    have hn : n ≠ 0 := by
      intro h0
      rw [h0] at hge
      have : (bareIter P (bareInit I) 0).barpos = 0 := rfl
      rw [this] at hge
      linarith
    have hn1 : (1 : ℝ) ≤ (n : ℝ) := by
      exact_mod_cast Nat.one_le_iff_ne_zero.mpr hn
    rw [hv, bareIter_v]
    nlinarith

/-- Witness for C10 at the all-ones parameters with current `1`. -/
theorem claim_C10_witness :
    (∀ s : BareState, s.I = 1 →
        (bareStep Pone s).v = s.v + 2 * Pone.k * 1 ^ 2 * lnTerm Pone.D Pone.w / Pone.m * Pone.dt) ∧
    (∀ n : ℕ, (bareIter Pone (bareInit 1) n).v
        = n * (2 * Pone.k * 1 ^ 2 * lnTerm Pone.D Pone.w / Pone.m * Pone.dt)) ∧
    (∀ n : ℕ, (bareIter Pone (bareInit 1) n).v < (bareIter Pone (bareInit 1) (n + 1)).v) ∧
    (∀ fuel vout, bareRunAux Pone fuel (bareInit 1) = some vout → 0 < vout) :=
  claim_C10_linear_velocity Pone (by norm_num [Pone]) (by norm_num [Pone])
    (by norm_num [Pone]) (by norm_num [Pone]) (by norm_num [Pone]) (by norm_num [Pone])
    1 one_ne_zero

/-- C2 (counterexample): the reported current is **not** one growth-step
below the succeeding trial.  In the concrete bare search with `g = 2`,
`v_goal = 3`, `I_start = 1`, the trial that achieved `v > v_goal` is
current `2` (its run returns `4 > 3`; the previous trial `1` returned
`2 ≤ 3`), and the search reports exactly `2` — not `2 / g = 1`. -/
theorem claim_C2_counterexample :
    bareSearch P0 2 3 1 3 3 = some (4, 2) ∧
    bareRunAux P0 3 (bareInit 2) = some 4 ∧ (3 : ℝ) < 4 ∧
    bareRunAux P0 3 (bareInit 1) = some 2 ∧ ¬ (3 : ℝ) < 2 ∧
    (2 : ℝ) ≠ 2 / 2 :=
  ⟨bareSearch_P0_goal3, bareRun_P0_I2, by norm_num, bareRun_P0_I1, by norm_num, by norm_num⟩

/-- C2 (amended): when either search terminates (having run at least one
trial), the current it reports — the printed `I/g` — is exactly the trial
current whose run achieved exit velocity `> v_goal`, because `I` has
already been multiplied by `g` after that successful run.  It is not the
previous (failed) trial. -/
theorem claim_C2_amended (P : Params) (g v_goal : ℝ) (innerFuel : ℕ) (hg : g ≠ 0) :
    (∀ (n : ℕ) (v I v_out I_rep : ℝ),
        bareSearchLoop P g v_goal innerFuel n v I = some (v_out, I_rep) → v ≤ v_goal →
          ∃ Ia, bareRunAux P innerFuel (bareInit Ia) = some v_out ∧ v_goal < v_out ∧
            I_rep = Ia) ∧
    (∀ (n : ℕ) (v Is t v_out I_rep : ℝ),
        augSearchLoop P g v_goal innerFuel n v Is t = some (v_out, I_rep) → v ≤ v_goal →
          ∃ Ia ta s, augRunAux P innerFuel (augInit ta Ia) = some s ∧ s.v = v_out ∧
            v_goal < v_out ∧ I_rep = Ia) := by
  constructor
  · intro n
    induction n with
    | zero =>
      intro v I v_out I_rep h hv
      simp [bareSearchLoop] at h
    | succ n ih =>
      intro v I v_out I_rep h hv
      rcases hrun : bareRunAux P innerFuel (bareInit I) with _ | v2
      · rw [bareSearchLoop_succ_none P g v_goal innerFuel n v I hv hrun] at h
        exact absurd h (by simp)
      · rw [bareSearchLoop_succ_run P g v_goal innerFuel n v I v2 hv hrun] at h
        by_cases hv2 : v2 ≤ v_goal
        · exact ih v2 (I * g) v_out I_rep h hv2
        · match n with
          | 0 => simp [bareSearchLoop] at h
          | m + 1 =>
            rw [bareSearchLoop_succ_stop P g v_goal innerFuel m v2 (I * g) hv2] at h
            simp only [Option.some.injEq, Prod.mk.injEq] at h
            obtain ⟨h1, h2⟩ := h
            refine ⟨I, ?_, ?_, ?_⟩
            · rw [← h1]; exact hrun
            · rw [← h1]; exact not_le.mp hv2
            · rw [← h2]; exact mul_div_cancel_right₀ I hg
  · intro n
    induction n with
    | zero =>
      intro v Is t v_out I_rep h hv
      simp [augSearchLoop] at h
    | succ n ih =>
      intro v Is t v_out I_rep h hv
      rcases hrun : augRunAux P innerFuel (augInit t Is) with _ | s
      · rw [augSearchLoop_succ_none P g v_goal innerFuel n v Is t hv hrun] at h
        exact absurd h (by simp)
      · rw [augSearchLoop_succ_run P g v_goal innerFuel n v Is t s hv hrun] at h
        by_cases hv2 : s.v ≤ v_goal
        · exact ih s.v (Is * g) s.t v_out I_rep h hv2
        · match n with
          | 0 => simp [augSearchLoop] at h
          | m + 1 =>
            rw [augSearchLoop_succ_stop P g v_goal innerFuel m s.v (Is * g) s.t hv2] at h
            simp only [Option.some.injEq, Prod.mk.injEq] at h
            obtain ⟨h1, h2⟩ := h
            refine ⟨Is, t, s, hrun, h1, ?_, ?_⟩
            · rw [← h1]; exact not_le.mp hv2
            · rw [← h2]; exact mul_div_cancel_right₀ Is hg

/-- Witness for the amended C2: instantiating both parts at the concrete
searches of `P0`. -/
theorem claim_C2_witness :
    (∃ Ia, bareRunAux P0 3 (bareInit Ia) = some 4 ∧ (3 : ℝ) < 4 ∧ (2 : ℝ) = Ia) ∧
    (∃ Ia ta s, augRunAux P0 3 (augInit ta Ia) = some s ∧ s.v = 1936 / 25 ∧
      (1 : ℝ) < 1936 / 25 ∧ (1 : ℝ) = Ia) :=
  ⟨(claim_C2_amended P0 2 3 3 (by norm_num)).1 3 0 1 4 2 bareSearch_P0_goal3 (by norm_num),
   (claim_C2_amended P0 2 1 3 (by norm_num)).2 2 0 1 0 (1936 / 25) 1 augSearch_P0_goal1
     (by norm_num)⟩

/-- C3 (counterexample): the augmented search does **not** reset elapsed
time between trials.  At `P0` with `v_goal = 100`, trial `0` (current
`1`) exits after two steps with velocity `1936/25 ≤ 100`, i.e. it fails,
so trial `1` is reached — and it starts with `t = 2 ≠ 0`, the time
accumulated by the failed run. -/
theorem claim_C3_counterexample :
    augRunAux P0 3 (augInit 0 1) = some ⟨1716 / 25, 1936 / 25, 2, 49 / 5⟩ ∧
    (1936 / 25 : ℝ) ≤ 100 ∧
    augTrialState P0 2 100 3 1 0 1 = some (1936 / 25, 2, 2) ∧ (2 : ℝ) ≠ 0 :=
  ⟨augRun_P0_I1, by norm_num, augTrialState_P0_one, by norm_num⟩

/-- C3 (amended): every trial of either search runs from position `0`,
velocity `0` and current exactly `I_start·gⁿ`; but in the augmented
variant the elapsed time is *not* reset — trial `n+1` starts with the
time at which the previous run ended. -/
theorem claim_C3_amended (P : Params) (g v_goal I_start t0 : ℝ) (innerFuel : ℕ) :
    (∀ (n : ℕ) (v I : ℝ), bareTrialState P g v_goal innerFuel I_start n = some (v, I) →
        I = I_start * g ^ n) ∧
    (∀ (n : ℕ) (v Is t : ℝ),
        augTrialState P g v_goal innerFuel I_start t0 n = some (v, Is, t) →
          Is = I_start * g ^ n) ∧
    (∀ (n : ℕ) (v2 Is2 t2 : ℝ),
        augTrialState P g v_goal innerFuel I_start t0 (n + 1) = some (v2, Is2, t2) →
          ∃ v Is t s, augTrialState P g v_goal innerFuel I_start t0 n = some (v, Is, t) ∧
            v ≤ v_goal ∧ augRunAux P innerFuel (augInit t Is) = some s ∧
            v2 = s.v ∧ Is2 = Is * g ∧ t2 = s.t) := by
  refine ⟨?_, ?_, ?_⟩
  · intro n
    induction n with
    | zero =>
      intro v I h
      simp only [bareTrialState, Option.some.injEq, Prod.mk.injEq] at h
      rw [← h.2, pow_zero, mul_one]
    | succ n ih =>
      intro v I h
      rcases hp : bareTrialState P g v_goal innerFuel I_start n with _ | ⟨v1, I1⟩
      · simp only [bareTrialState, hp] at h
        exact Option.noConfusion h
      · simp only [bareTrialState, hp] at h
        by_cases hv1 : v1 ≤ v_goal
        · rw [if_pos hv1] at h
          rcases hr : bareRunAux P innerFuel (bareInit I1) with _ | v2
          · rw [hr] at h; simp at h
          · rw [hr] at h
            simp only [Option.some.injEq, Prod.mk.injEq] at h
            rw [← h.2, ih v1 I1 hp, pow_succ, mul_assoc]
        · rw [if_neg hv1] at h; simp at h
  · intro n
    induction n with
    | zero =>
      intro v Is t h
      simp only [augTrialState, Option.some.injEq, Prod.mk.injEq] at h
      rw [← h.2.1, pow_zero, mul_one]
    | succ n ih =>
      intro v Is t h
      rcases hp : augTrialState P g v_goal innerFuel I_start t0 n with _ | ⟨v1, Is1, t1⟩
      · simp only [augTrialState, hp] at h
        exact Option.noConfusion h
      · simp only [augTrialState, hp] at h
        by_cases hv1 : v1 ≤ v_goal
        · rw [if_pos hv1] at h
          rcases hr : augRunAux P innerFuel (augInit t1 Is1) with _ | s
          · rw [hr] at h; simp at h
          · rw [hr] at h
            simp only [Option.some.injEq, Prod.mk.injEq] at h
            rw [← h.2.1, ih v1 Is1 t1 hp, pow_succ, mul_assoc]
        · rw [if_neg hv1] at h; simp at h
  · intro n v2 Is2 t2 h
    rcases hp : augTrialState P g v_goal innerFuel I_start t0 n with _ | ⟨v1, Is1, t1⟩
    · simp only [augTrialState, hp] at h
      exact Option.noConfusion h
    · simp only [augTrialState, hp] at h
      by_cases hv1 : v1 ≤ v_goal
      · rw [if_pos hv1] at h
        rcases hr : augRunAux P innerFuel (augInit t1 Is1) with _ | s
        · rw [hr] at h; simp at h
        · rw [hr] at h
          simp only [Option.some.injEq, Prod.mk.injEq] at h
          exact ⟨v1, Is1, t1, s, rfl, hv1, hr, h.1.symm, h.2.1.symm, h.2.2.symm⟩
      · rw [if_neg hv1] at h; simp at h

/-- Witness for the amended C3 at the concrete `P0` searches. -/
theorem claim_C3_witness :
    ((2 : ℝ) = 1 * 2 ^ 1) ∧ ((2 : ℝ) = 1 * 2 ^ 1) ∧
    (∃ v Is t s, augTrialState P0 2 100 3 1 0 0 = some (v, Is, t) ∧ v ≤ 100 ∧
      augRunAux P0 3 (augInit t Is) = some s ∧
      (1936 / 25 : ℝ) = s.v ∧ (2 : ℝ) = Is * 2 ∧ (2 : ℝ) = s.t) :=
  ⟨(claim_C3_amended P0 2 3 1 0 3).1 1 2 2 bareTrialState_P0_one,
   (claim_C3_amended P0 2 100 1 0 3).2.1 1 (1936 / 25) 2 2 augTrialState_P0_one,
   (claim_C3_amended P0 2 100 1 0 3).2.2 0 (1936 / 25) 2 2 augTrialState_P0_one⟩

/-- C8 (counterexample): with identical geometry and search parameters and
`v_goal = 1 > 0`, the bare search reports current `1` and the augmented
search also reports current `1` — the augmented requirement is *not*
strictly larger. -/
theorem claim_C8_counterexample :
    (0 : ℝ) < 1 ∧
    bareSearch P0 2 1 1 3 2 = some (2, 1) ∧
    augSearch P0 2 1 1 0 3 2 = some (1936 / 25, 1) ∧
    ¬ (1 : ℝ) < 1 :=
  ⟨by norm_num, bareSearch_P0_goal1, augSearch_P0_goal1, by norm_num⟩

/-- C8 (amended): whenever the very first trial already exceeds `v_goal`
in both modes, the two searches report exactly the same current
`I_start` — so the augmented requirement is not in general strictly
larger than the bare one. -/
theorem claim_C8_amended (P : Params) (g v_goal I_start t0 : ℝ) (innerFuel n : ℕ)
    (hg : g ≠ 0) (hvg : 0 ≤ v_goal) (vb : ℝ) (sa : AugState)
    (hb : bareRunAux P innerFuel (bareInit I_start) = some vb) (hvb : v_goal < vb)
    (ha : augRunAux P innerFuel (augInit t0 I_start) = some sa) (hva : v_goal < sa.v) :
    bareSearch P g v_goal I_start innerFuel (n + 2) = some (vb, I_start) ∧
    augSearch P g v_goal I_start t0 innerFuel (n + 2) = some (sa.v, I_start) := by
  constructor
  · show bareSearchLoop P g v_goal innerFuel ((n + 1) + 1) 0 I_start = some (vb, I_start)
    rw [bareSearchLoop_succ_run P g v_goal innerFuel (n + 1) 0 I_start vb hvg hb,
        bareSearchLoop_succ_stop P g v_goal innerFuel n vb (I_start * g) (not_le.mpr hvb),
        mul_div_cancel_right₀ I_start hg]
  · show augSearchLoop P g v_goal innerFuel ((n + 1) + 1) 0 I_start t0 = some (sa.v, I_start)
    rw [augSearchLoop_succ_run P g v_goal innerFuel (n + 1) 0 I_start t0 sa hvg ha,
        augSearchLoop_succ_stop P g v_goal innerFuel n sa.v (I_start * g) sa.t
          (not_le.mpr hva),
        mul_div_cancel_right₀ I_start hg]

/-- Witness for the amended C8 at the concrete `P0` searches. -/
theorem claim_C8_witness :
    bareSearch P0 2 1 1 3 2 = some (2, 1) ∧
    augSearch P0 2 1 1 0 3 2 = some (1936 / 25, 1) :=
  claim_C8_amended P0 2 1 1 0 3 0 (by norm_num) (by norm_num) 2
    ⟨1716 / 25, 1936 / 25, 2, 49 / 5⟩ bareRun_P0_I1 (by norm_num) augRun_P0_I1 (by norm_num)

end Railgun
